import Mathlib

/-!
Shallow embedding of `src/message/poolmessage.rs` from the
`zkwork_aleo_protocol` repository: the `Data` deferred-payload container,
the two message schemas `PoolMessageSC` / `PoolMessageCS`, their
`serialize_data_into` / `serialize_into` / `deserialize` functions, and the
length-prefixed tokio codec `encode` / `decode` implementations.

Modelling conventions:
- bytes and machine integers are `Nat`; width truncation (`as u8`,
  `to_le_bytes`, `as u32`) is explicit `% 256` / byte extraction;
- Rust slice expressions `&data[a..b]` / `&data[a..]` / `data[i]`, which
  panic when out of bounds, are modelled by `Option`-returning accessors;
  the panic outcome is a first-class result (`DResult.panicked`,
  `FrameOutcome.panicked`), since several claims are about totality;
- writer-based serializers are state-passing over the written byte list,
  `WResult` carrying the writer contents both on success and on failure;
- external snarkVM types are opaque: `EpochChallenge` and `ProverSolution`
  are type parameters with their byte codecs (`ECodec`, `BytesCodec`)
  passed in, mirroring the `N: Network` genericity of the source.
  `Address<N>` is modelled as its observed bincode form, an exact 32-byte
  block (the source itself slices a fixed `data[1..=32]` for it);
- `bincode` 1.x legacy encoding of fixed-width integers is little-endian
  fixint, and top-level `bincode::deserialize` tolerates trailing bytes.
-/

namespace Zkwork

/-! ### Byte-level primitives -/

/-- Little-endian byte decomposition of a `u32` (`u32::to_le_bytes`). -/
def u32ToLeBytes (n : Nat) : List Nat :=
  [n % 256, n / 256 % 256, n / 65536 % 256, n / 16777216 % 256]

/-- Little-endian byte decomposition of a `u64` (`u64::to_le_bytes`). -/
def u64ToLeBytes (n : Nat) : List Nat :=
  [n % 256, n / 256 % 256, n / 65536 % 256, n / 16777216 % 256,
   n / 4294967296 % 256, n / 1099511627776 % 256,
   n / 281474976710656 % 256, n / 72057594037927936 % 256]

/-- Little-endian interpretation of a byte list (`from_le_bytes`). -/
def fromLeBytes : List Nat → Nat
  | [] => 0
  | b :: rest => b + 256 * fromLeBytes rest

/-- Rust slice `&l[a..b]`: `none` models the out-of-bounds panic. -/
def sliceRange (l : List Nat) (a b : Nat) : Option (List Nat) :=
  if a ≤ b ∧ b ≤ l.length then some ((l.drop a).take (b - a)) else none

/-- Rust slice `&l[a..]`: `none` models the out-of-bounds panic. -/
def sliceFrom (l : List Nat) (a : Nat) : Option (List Nat) :=
  if a ≤ l.length then some (l.drop a) else none

/-! ### UTF-8 validation (`String::from_utf8`) -/

/-- A UTF-8 continuation byte `0x80..=0xBF`. -/
def utf8Cont (b : Nat) : Bool := 128 ≤ b && b ≤ 191

/-- Byte-level UTF-8 validity, following Rust's `run_utf8_validation`. -/
def utf8Valid : List Nat → Bool
  | [] => true
  | b :: r =>
    if b ≤ 127 then utf8Valid r
    else if 194 ≤ b && b ≤ 223 then
      match r with
      | c1 :: r1 => utf8Cont c1 && utf8Valid r1
      | [] => false
    else if b == 224 then
      match r with
      | c1 :: c2 :: r2 => (160 ≤ c1 && c1 ≤ 191) && utf8Cont c2 && utf8Valid r2
      | _ => false
    else if 225 ≤ b && b ≤ 236 then
      match r with
      | c1 :: c2 :: r2 => utf8Cont c1 && utf8Cont c2 && utf8Valid r2
      | _ => false
    else if b == 237 then
      match r with
      | c1 :: c2 :: r2 => (128 ≤ c1 && c1 ≤ 159) && utf8Cont c2 && utf8Valid r2
      | _ => false
    else if 238 ≤ b && b ≤ 239 then
      match r with
      | c1 :: c2 :: r2 => utf8Cont c1 && utf8Cont c2 && utf8Valid r2
      | _ => false
    else if b == 240 then
      match r with
      | c1 :: c2 :: c3 :: r3 =>
          (144 ≤ c1 && c1 ≤ 191) && utf8Cont c2 && utf8Cont c3 && utf8Valid r3
      | _ => false
    else if 241 ≤ b && b ≤ 243 then
      match r with
      | c1 :: c2 :: c3 :: r3 =>
          utf8Cont c1 && utf8Cont c2 && utf8Cont c3 && utf8Valid r3
      | _ => false
    else if b == 244 then
      match r with
      | c1 :: c2 :: c3 :: r3 =>
          (128 ≤ c1 && c1 ≤ 143) && utf8Cont c2 && utf8Cont c3 && utf8Valid r3
      | _ => false
    else false

/-- A Rust `String`, identified with its valid UTF-8 byte content. -/
def RustString : Type := {l : List Nat // utf8Valid l = true}

instance : DecidableEq RustString :=
  inferInstanceAs (DecidableEq {l : List Nat // utf8Valid l = true})

/-- `String::from_utf8`: succeeds exactly on valid UTF-8 bytes. -/
def fromUtf8 (l : List Nat) : Except Unit RustString :=
  if h : utf8Valid l = true then .ok ⟨l, h⟩ else .error ()

/-! ### External snarkVM types (opaque domain objects) -/

/-- `Address<N>` in its bincode wire form: an exact 32-byte block (the
source's own decoder slices a fixed `data[1..=32]` for it). -/
def Address : Type := {l : List Nat // l.length = 32}

instance : DecidableEq Address :=
  inferInstanceAs (DecidableEq {l : List Nat // l.length = 32})

/-- `bincode::serialize_into(writer, address)`: the 32 raw bytes. -/
def bincodeSerAddress (a : Address) : List Nat := a.val

/-- `bincode::deserialize::<Address<N>>` from a byte slice. -/
def bincodeDeserAddress (l : List Nat) : Except Unit Address :=
  if h : l.length = 32 then .ok ⟨l, h⟩ else .error ()

/-- The `FromBytes + ToBytes` contract of an opaque payload type
(`ProverSolution<N>` and friends). -/
structure BytesCodec (T : Type) where
  toBytesLe : T → Except Unit (List Nat)
  fromBytesLe : List Nat → Except Unit T

/-- The `ToBytes`/`FromBytes` contract of `EpochChallenge<N>`
(`to_bytes_le` / `read_le`). -/
structure ECodec (E : Type) where
  toBytesLe : E → Except Unit (List Nat)
  readLe : List Nat → Except Unit E

/-! ### Writer results

Rust serializers write into a `W: Write`; we pass the written byte list
through explicitly. `WResult.err` keeps the writer contents at the point
of failure. -/

inductive WResult where
  | ok (buf : List Nat)
  | err (buf : List Nat)
  deriving DecidableEq

/-- Result of a Rust deserializer over untrusted input: a returned value,
a returned `Err(...)`, or a panic (out-of-bounds slice / index). -/
inductive DResult (α : Type) where
  | ok (a : α)
  | err
  | panicked
  deriving DecidableEq

/-! ### `Data<T>`: deferred deserialization / ahead-of-time serialization -/

inductive Data (T : Type) where
  | object (x : T)
  | buffer (b : List Nat)
  deriving DecidableEq

namespace Data

/-- `Data::deserialize_blocking`. -/
def deserialize_blocking {T : Type} (c : BytesCodec T) : Data T → Except Unit T
  | .object x => .ok x
  | .buffer b => c.fromBytesLe b

/-- Result of `Data::serialize` (the async path): the `Object` branch runs
`to_bytes_le`, the `Buffer` branch returns the bytes unchanged. -/
def serialize {T : Type} (c : BytesCodec T) : Data T → Except Unit (List Nat)
  | .object x => c.toBytesLe x
  | .buffer b => .ok b

/-- Whether `Data::serialize` dispatches to `task::spawn_blocking`:
only the `Object` branch does. -/
def serializeSpawns {T : Type} : Data T → Bool
  | .object _ => true
  | .buffer _ => false

/-- `Data::serialize_blocking_into`. -/
def serialize_blocking_into {T : Type} (c : BytesCodec T) (d : Data T)
    (w : List Nat) : WResult :=
  match d with
  | .object x =>
    match c.toBytesLe x with
    | .ok bytes => .ok (w ++ bytes)
    | .error _ => .err w
  | .buffer b => .ok (w ++ b)

end Data

/-! ### `PoolMessageSC<N>`: server → client schema -/

inductive PoolMessageSC (E : Type) where
  /-- ConnectAck := (is_accecpt, address, [id], [signature]) -/
  | ConnectAck (a : Bool) (address : Address) (id : Option Nat)
      (signature : Option RustString)
  /-- Notify := (job_id, target, epoch_challenge) -/
  | Notify (job_id : Nat) (target : Nat) (epoch_challenge : E)
  | ShutDown
  | Pong
  | Unused
  deriving DecidableEq

namespace PoolMessageSC

/-- `PoolMessageSC::id`. -/
def id {E : Type} : PoolMessageSC E → Nat
  | .ConnectAck _ _ _ _ => 0
  | .Notify _ _ _ => 1
  | .ShutDown => 2
  | .Pong => 3
  | .Unused => 127

/-- `PoolMessageSC::serialize_data_into`. -/
def serialize_data_into {E : Type} (c : ECodec E) :
    PoolMessageSC E → List Nat → WResult
  | .ConnectAck a address oid osig, w =>
    match a with
    | true =>
      match oid, osig with
      | some i, some s =>
          .ok (w ++ [1] ++ bincodeSerAddress address ++ u32ToLeBytes i ++ s.val)
      | _, _ => .err w
    | false => .ok (w ++ [0] ++ bincodeSerAddress address)
  | .Notify job_id target e, w =>
    match c.toBytesLe e with
    | .ok eb => .ok (w ++ u64ToLeBytes job_id ++ u64ToLeBytes target ++ eb)
    | .error _ => .err (w ++ u64ToLeBytes job_id ++ u64ToLeBytes target)
  | .ShutDown, w => .ok w
  | .Pong, w => .ok w
  | .Unused, w => .ok w

/-- `PoolMessageSC::serialize_into`: a one-byte bincode message id,
then the data. -/
def serialize_into {E : Type} (c : ECodec E) (m : PoolMessageSC E)
    (w : List Nat) : WResult :=
  serialize_data_into c m (w ++ [m.id])

/-- `PoolMessageSC::deserialize`. -/
def deserialize {E : Type} (c : ECodec E) (buffer : List Nat) :
    DResult (PoolMessageSC E) :=
  match buffer with
  | [] => .err
  | id :: data =>
    match id with
    | 0 =>
      match data with
      | [] => .err
      | d0 :: _ =>
        match d0 with
        | 0 =>
          match sliceRange data 1 33 with
          | none => .panicked
          | some ab =>
            match bincodeDeserAddress ab with
            | .ok a => .ok (.ConnectAck false a none none)
            | .error _ => .err
        | 1 =>
          match sliceRange data 1 33 with
          | none => .panicked
          | some ab =>
            match bincodeDeserAddress ab with
            | .error _ => .err
            | .ok a =>
              -- the four index accesses data[33] .. data[36]
              match sliceRange data 33 37 with
              | none => .panicked
              | some idb =>
                match sliceFrom data 37 with
                | none => .panicked
                | some sb =>
                  match fromUtf8 sb with
                  | .ok s => .ok (.ConnectAck true a (some (fromLeBytes idb)) (some s))
                  | .error _ => .err
        | _ => .err
    | 1 =>
      match sliceRange data 0 8 with
      | none => .panicked
      | some jb =>
        match sliceRange data 8 16 with
        | none => .panicked
        | some tb =>
          match sliceFrom data 16 with
          | none => .panicked
          | some eb =>
            match c.readLe eb with
            | .ok e => .ok (.Notify (fromLeBytes jb) (fromLeBytes tb) e)
            | .error _ => .err
    | 2 =>
      match data with
      | [] => .ok .ShutDown
      | _ => .err
    | 3 =>
      match data with
      | [] => .ok .Pong
      | _ => .err
    | _ => .err

end PoolMessageSC

/-! ### The tokio length-prefixed codec (server → client) -/

def MAXIMUM_MESSAGE_SIZE : Nat := 512

/-- The two `std::io::Error::new(InvalidData, ...)` sites of `decode`:
the oversized-frame rejection and the failed schema-level deserialize. -/
inductive FrameErr where
  | tooLarge
  | invalidData
  deriving DecidableEq

/-- Outcome of one `Decoder::decode` call: `Ok(None)` (need more bytes),
`Ok(Some(m))`, `Err(...)`, or a panic inside `deserialize`. -/
inductive FrameOutcome (α : Type) where
  | needMore
  | msg (m : α)
  | err (e : FrameErr)
  | panicked
  deriving DecidableEq

/-- `<PoolMessageSC as Decoder>::decode`: returns the outcome and the
`source` buffer as it is left after the call (`advance` consumes the
frame on both the success and the deserialize-failure path). -/
def decodeSC {E : Type} (c : ECodec E) (source : List Nat) :
    FrameOutcome (PoolMessageSC E) × List Nat :=
  if source.length < 4 then (.needMore, source)
  else
    let length := fromLeBytes (source.take 4)
    if MAXIMUM_MESSAGE_SIZE < length then (.err .tooLarge, source)
    else if source.length < 4 + length then
      -- `source.reserve(..)` changes capacity only, not contents
      (.needMore, source)
    else
      match PoolMessageSC.deserialize c ((source.drop 4).take length) with
      | .ok m => (.msg m, source.drop (4 + length))
      | .err => (.err .invalidData, source.drop (4 + length))
      | .panicked => (.panicked, source)

/-- `<PoolMessageSC as Encoder>::encode`: append a 4-byte placeholder,
serialize, then backfill `dst[..4]` with `dst[4..].len() as u32`. -/
def encodeSC {E : Type} (c : ECodec E) (message : PoolMessageSC E)
    (dst : List Nat) : WResult :=
  match message.serialize_into c (dst ++ [0, 0, 0, 0]) with
  | .err b => .err b
  | .ok b => .ok (u32ToLeBytes (b.length - 4) ++ b.drop 4)

/-! ### `PoolMessageCS<N>`: client → server schema -/

inductive PoolMessageCS (P : Type) where
  /-- Connect := (type, address_type, version(major, minor, patch), name, address) -/
  | Connect (worker_type : Nat) (address_type : Nat) (v_major : Nat)
      (v_minor : Nat) (v_patch : Nat)
      (custom_name : RustString) (address : RustString)
  /-- submit := (work_id, job_id, prover_solution) -/
  | Submit (worker_id : Nat) (job_id : Nat) (prover_solution : Data P)
  /-- DisConnect := (id) -/
  | DisConnect (id : Nat)
  | Ping
  | Unused
  deriving DecidableEq

namespace PoolMessageCS

/-- `PoolMessageCS::id`. -/
def id {P : Type} : PoolMessageCS P → Nat
  | .Connect _ _ _ _ _ _ _ => 128
  | .Submit _ _ _ => 129
  | .DisConnect _ => 130
  | .Ping => 131
  | .Unused => 255

/-- `PoolMessageCS::serialize_data_into`. The `Connect` arm writes the
five version bytes, then `custom_name.len() as u8`, then the name bytes,
then the address bytes with no length of their own. -/
def serialize_data_into {P : Type} (c : BytesCodec P) :
    PoolMessageCS P → List Nat → WResult
  | .Connect t y j n p custom_name address, w =>
      .ok (w ++ [t] ++ [y] ++ [j] ++ [n] ++ [p] ++
        [custom_name.val.length % 256] ++ custom_name.val ++ address.val)
  | .Submit worker_id job_id prover_solution, w =>
      Data.serialize_blocking_into c prover_solution
        (w ++ u32ToLeBytes worker_id ++ u64ToLeBytes job_id)
  | .DisConnect i, w => .ok (w ++ u32ToLeBytes i)
  | .Ping, w => .ok w
  | .Unused, w => .ok w

/-- `PoolMessageCS::serialize_into`. -/
def serialize_into {P : Type} (c : BytesCodec P) (m : PoolMessageCS P)
    (w : List Nat) : WResult :=
  serialize_data_into c m (w ++ [m.id])

/-- `bincode::deserialize::<u32>` from the whole remaining body (the
`DisConnect` arm): legacy bincode reads 4 little-endian bytes and
tolerates trailing bytes. -/
def bincodeDeserU32 (l : List Nat) : Except Unit Nat :=
  if l.length < 4 then .error () else .ok (fromLeBytes (l.take 4))

/-- `PoolMessageCS::deserialize`. In the `Connect` arm `name_end` is
`(6 + data[5]) as usize` where `6 + data[5]` is `u8` arithmetic: we model
release-build wrapping (`% 256`); a debug build panics on the overflow
itself, which lands in the same `panicked` outcome through the
out-of-range slice that follows. -/
def deserialize {P : Type} (buffer : List Nat) : DResult (PoolMessageCS P) :=
  match buffer with
  | [] => .err
  | id :: data =>
    match id with
    | 128 =>
      match data[5]? with
      | none => .panicked
      | some b5 =>
        let e := (6 + b5) % 256
        match sliceRange data 6 e with
        | none => .panicked
        | some nb =>
          match sliceFrom data e with
          | none => .panicked
          | some ab =>
            match fromUtf8 nb with
            | .error _ => .err
            | .ok nm =>
              match fromUtf8 ab with
              | .error _ => .err
              | .ok ad =>
                  .ok (.Connect (data.getD 0 0) (data.getD 1 0) (data.getD 2 0)
                    (data.getD 3 0) (data.getD 4 0) nm ad)
    | 129 =>
      match sliceRange data 0 4 with
      | none => .panicked
      | some wb =>
        match sliceRange data 4 12 with
        | none => .panicked
        | some jb =>
          match sliceFrom data 12 with
          | none => .panicked
          | some pb => .ok (.Submit (fromLeBytes wb) (fromLeBytes jb) (.buffer pb))
    | 130 =>
      match bincodeDeserU32 data with
      | .ok i => .ok (.DisConnect i)
      | .error _ => .err
    | 131 =>
      match data with
      | [] => .ok .Ping
      | _ => .err
    | _ => .err

end PoolMessageCS

/-- `<PoolMessageCS as Decoder>::decode`. -/
def decodeCS {P : Type} (source : List Nat) :
    FrameOutcome (PoolMessageCS P) × List Nat :=
  if source.length < 4 then (.needMore, source)
  else
    let length := fromLeBytes (source.take 4)
    if MAXIMUM_MESSAGE_SIZE < length then (.err .tooLarge, source)
    else if source.length < 4 + length then (.needMore, source)
    else
      match PoolMessageCS.deserialize ((source.drop 4).take length) with
      | .ok m => (.msg m, source.drop (4 + length))
      | .err => (.err .invalidData, source.drop (4 + length))
      | .panicked => (.panicked, source)

/-- `<PoolMessageCS as Encoder>::encode`. -/
def encodeCS {P : Type} (c : BytesCodec P) (message : PoolMessageCS P)
    (dst : List Nat) : WResult :=
  match message.serialize_into c (dst ++ [0, 0, 0, 0]) with
  | .err b => .err b
  | .ok b => .ok (u32ToLeBytes (b.length - 4) ++ b.drop 4)

/-! ### Concrete instantiations used by closed statements -/

/-- Trivial payload codec over `Unit` (domain objects are opaque here). -/
def unitBC : BytesCodec Unit :=
  ⟨fun _ => .ok [], fun l => match l with | [] => .ok () | _ => .error ()⟩

/-- Trivial epoch-challenge codec over `Unit`. -/
def unitEC : ECodec Unit :=
  ⟨fun _ => .ok [], fun l => match l with | [] => .ok () | _ => .error ()⟩

/-! ### Arithmetic and slicing lemmas -/

lemma length_u32ToLeBytes (n : Nat) : (u32ToLeBytes n).length = 4 := rfl

lemma length_u64ToLeBytes (n : Nat) : (u64ToLeBytes n).length = 8 := rfl

lemma fromLeBytes_u32ToLeBytes (n : Nat) :
    fromLeBytes (u32ToLeBytes n) = n % 4294967296 := by
  simp only [u32ToLeBytes, fromLeBytes]
  omega

lemma fromLeBytes_u64ToLeBytes (n : Nat) :
    fromLeBytes (u64ToLeBytes n) = n % 18446744073709551616 := by
  simp only [u64ToLeBytes, fromLeBytes]
  omega

lemma fromLeBytes_u32ToLeBytes_of_lt {n : Nat} (h : n < 4294967296) :
    fromLeBytes (u32ToLeBytes n) = n := by
  rw [fromLeBytes_u32ToLeBytes, Nat.mod_eq_of_lt h]

lemma fromLeBytes_u64ToLeBytes_of_lt {n : Nat} (h : n < 18446744073709551616) :
    fromLeBytes (u64ToLeBytes n) = n := by
  rw [fromLeBytes_u64ToLeBytes, Nat.mod_eq_of_lt h]

lemma sliceRange_of_append {l p q r : List Nat} {a b : Nat}
    (h : l = p ++ (q ++ r)) (hp : p.length = a) (hq : q.length = b - a)
    (hab : a ≤ b) : sliceRange l a b = some q := by
  subst h
  have hblen : b ≤ (p ++ (q ++ r)).length := by
    simp only [List.length_append]
    omega
  rw [sliceRange, if_pos ⟨hab, hblen⟩, List.drop_left' hp, List.take_left' hq]

lemma sliceFrom_of_append {l p q : List Nat} {a : Nat}
    (h : l = p ++ q) (hp : p.length = a) : sliceFrom l a = some q := by
  subst h
  have halen : a ≤ (p ++ q).length := by
    simp only [List.length_append]
    omega
  rw [sliceFrom, if_pos halen, List.drop_left' hp]

lemma fromUtf8_of_valid (s : RustString) : fromUtf8 s.val = .ok s := by
  rw [fromUtf8, dif_pos s.property]
  rfl

lemma bincodeDeserAddress_of_valid (a : Address) :
    bincodeDeserAddress a.val = .ok a := by
  rw [bincodeDeserAddress, dif_pos a.property]
  rfl

instance {e a : Type} [DecidableEq e] [DecidableEq a] :
    DecidableEq (Except e a) := fun x y =>
  match x, y with
  | .ok u, .ok v =>
    if h : u = v then isTrue (by rw [h]) else
      isFalse (fun hh => by cases hh; exact h rfl)
  | .ok _, .error _ => isFalse (fun hh => by cases hh)
  | .error _, .ok _ => isFalse (fun hh => by cases hh)
  | .error u, .error v =>
    if h : u = v then isTrue (by rw [h]) else
      isFalse (fun hh => by cases hh; exact h rfl)

/-! ### Server → client round trips -/

/-- Valid domain ranges for a server → client message: integer fields fit
their Rust widths, the `ConnectAck` optional fields are present exactly
when the accept flag is set, the epoch challenge round-trips through its
own snarkVM codec, and the internal `Unused` placeholder is excluded. -/
def scValid {E : Type} [DecidableEq E] (c : ECodec E) : PoolMessageSC E → Bool
  | .ConnectAck false _ none none => true
  | .ConnectAck true _ (some i) (some _) => decide (i < 4294967296)
  | .ConnectAck _ _ _ _ => false
  | .Notify j t e =>
    decide (j < 18446744073709551616) && decide (t < 18446744073709551616) &&
      (match c.toBytesLe e with
       | .ok eb => decide (c.readLe eb = .ok e)
       | .error _ => false)
  | .ShutDown => true
  | .Pong => true
  | .Unused => false

lemma sc_roundtrip_connectAck_false {E : Type} (c : ECodec E) (a : Address) :
    PoolMessageSC.serialize_into c (.ConnectAck false a none none) []
      = .ok (0 :: 0 :: a.val)
  ∧ PoolMessageSC.deserialize c (0 :: 0 :: a.val)
      = .ok (.ConnectAck false a none none) := by
  constructor
  · simp [PoolMessageSC.serialize_into, PoolMessageSC.serialize_data_into,
      PoolMessageSC.id, bincodeSerAddress]
  · have hs : sliceRange (0 :: a.val) 1 33 = some a.val :=
      sliceRange_of_append (p := [0]) (q := a.val) (r := []) (by simp) (by simp)
        (by simp [a.property]) (by omega)
    simp [PoolMessageSC.deserialize, hs, bincodeDeserAddress_of_valid]

lemma sc_roundtrip_connectAck_true {E : Type} (c : ECodec E) (a : Address)
    (i : Nat) (s : RustString) (hi : i < 4294967296) :
    PoolMessageSC.serialize_into c (.ConnectAck true a (some i) (some s)) []
      = .ok (0 :: 1 :: (a.val ++ (u32ToLeBytes i ++ s.val)))
  ∧ PoolMessageSC.deserialize c (0 :: 1 :: (a.val ++ (u32ToLeBytes i ++ s.val)))
      = .ok (.ConnectAck true a (some i) (some s)) := by
  constructor
  · simp [PoolMessageSC.serialize_into, PoolMessageSC.serialize_data_into,
      PoolMessageSC.id, bincodeSerAddress]
  · have h1 : sliceRange (1 :: (a.val ++ (u32ToLeBytes i ++ s.val))) 1 33
        = some a.val :=
      sliceRange_of_append (p := [1]) (q := a.val) (r := u32ToLeBytes i ++ s.val)
        (by simp) (by simp) (by simp [a.property]) (by omega)
    have h2 : sliceRange (1 :: (a.val ++ (u32ToLeBytes i ++ s.val))) 33 37
        = some (u32ToLeBytes i) :=
      sliceRange_of_append (p := 1 :: a.val) (q := u32ToLeBytes i) (r := s.val)
        (by simp) (by simp [a.property])
        (by simp [length_u32ToLeBytes]) (by omega)
    have h3 : sliceFrom (1 :: (a.val ++ (u32ToLeBytes i ++ s.val))) 37
        = some s.val :=
      sliceFrom_of_append (p := 1 :: (a.val ++ u32ToLeBytes i)) (q := s.val)
        (by simp) (by simp [a.property, length_u32ToLeBytes])
    simp [PoolMessageSC.deserialize, h1, h2, h3, bincodeDeserAddress_of_valid,
      fromUtf8_of_valid, fromLeBytes_u32ToLeBytes_of_lt hi]

lemma sc_roundtrip_notify {E : Type} (c : ECodec E) (j t : Nat) (e : E)
    (eb : List Nat) (hj : j < 18446744073709551616)
    (ht : t < 18446744073709551616) (hser : c.toBytesLe e = .ok eb)
    (hread : c.readLe eb = .ok e) :
    PoolMessageSC.serialize_into c (.Notify j t e) []
      = .ok (1 :: (u64ToLeBytes j ++ (u64ToLeBytes t ++ eb)))
  ∧ PoolMessageSC.deserialize c (1 :: (u64ToLeBytes j ++ (u64ToLeBytes t ++ eb)))
      = .ok (.Notify j t e) := by
  constructor
  · simp [PoolMessageSC.serialize_into, PoolMessageSC.serialize_data_into,
      PoolMessageSC.id, hser]
  · have h1 : sliceRange (u64ToLeBytes j ++ (u64ToLeBytes t ++ eb)) 0 8
        = some (u64ToLeBytes j) :=
      sliceRange_of_append (p := []) (q := u64ToLeBytes j) (r := u64ToLeBytes t ++ eb)
        (by simp) (by simp) (by simp [length_u64ToLeBytes]) (by omega)
    have h2 : sliceRange (u64ToLeBytes j ++ (u64ToLeBytes t ++ eb)) 8 16
        = some (u64ToLeBytes t) :=
      sliceRange_of_append (p := u64ToLeBytes j) (q := u64ToLeBytes t) (r := eb)
        (by simp) (by simp [length_u64ToLeBytes])
        (by simp [length_u64ToLeBytes]) (by omega)
    have h3 : sliceFrom (u64ToLeBytes j ++ (u64ToLeBytes t ++ eb)) 16
        = some eb :=
      sliceFrom_of_append (p := u64ToLeBytes j ++ u64ToLeBytes t) (q := eb)
        (by simp) (by simp [length_u64ToLeBytes])
    simp [PoolMessageSC.deserialize, h1, h2, h3, hread,
      fromLeBytes_u64ToLeBytes_of_lt hj, fromLeBytes_u64ToLeBytes_of_lt ht]

/-- Round trip for every server → client message in valid domain ranges. -/
lemma sc_roundtrip_valid {E : Type} [DecidableEq E] (c : ECodec E)
    (m : PoolMessageSC E) (h : scValid c m = true) :
    ∃ b, PoolMessageSC.serialize_into c m [] = .ok b
       ∧ PoolMessageSC.deserialize c b = .ok m := by
  cases m with
  | ConnectAck a address oid osig =>
    cases a
    · cases oid <;> cases osig <;> simp [scValid] at h
      exact ⟨_, sc_roundtrip_connectAck_false c address⟩
    · cases oid with
      | none => cases osig <;> simp [scValid] at h
      | some i =>
        cases osig with
        | none => simp [scValid] at h
        | some s =>
          simp [scValid] at h
          exact ⟨_, sc_roundtrip_connectAck_true c address i s h⟩
  | Notify j t e =>
    simp only [scValid, Bool.and_eq_true, decide_eq_true_eq] at h
    obtain ⟨⟨hj, ht⟩, hrest⟩ := h
    cases hser : c.toBytesLe e with
    | error u => rw [hser] at hrest; simp at hrest
    | ok eb =>
      rw [hser] at hrest
      simp only [decide_eq_true_eq] at hrest
      exact ⟨_, sc_roundtrip_notify c j t e eb hj ht hser hrest⟩
  | ShutDown =>
    refine ⟨[2], ?_, ?_⟩ <;>
      simp [PoolMessageSC.serialize_into, PoolMessageSC.serialize_data_into,
        PoolMessageSC.id, PoolMessageSC.deserialize]
  | Pong =>
    refine ⟨[3], ?_, ?_⟩ <;>
      simp [PoolMessageSC.serialize_into, PoolMessageSC.serialize_data_into,
        PoolMessageSC.id, PoolMessageSC.deserialize]
  | Unused => simp [scValid] at h

/-! ### Client → server round trips -/

/-- Valid domain ranges for a client → server message: byte and integer
fields fit their Rust widths, `custom_name` is short enough for its `u8`
length prefix and the decoder's `u8` offset arithmetic (at most 249
bytes), the `Submit` payload is in the `Buffer` state, and the internal
`Unused` placeholder is excluded. -/
def csValid {P : Type} : PoolMessageCS P → Bool
  | .Connect wt ay mj mn pt nm _ =>
      decide (wt < 256) && decide (ay < 256) && decide (mj < 256) &&
      decide (mn < 256) && decide (pt < 256) && decide (nm.val.length ≤ 249)
  | .Submit wid jid (.buffer _) =>
      decide (wid < 4294967296) && decide (jid < 18446744073709551616)
  | .Submit _ _ (.object _) => false
  | .DisConnect i => decide (i < 4294967296)
  | .Ping => true
  | .Unused => false

lemma cs_roundtrip_connect {P : Type} (c : BytesCodec P)
    (wt ay mj mn pt : Nat) (nm ad : RustString)
    (hlen : nm.val.length ≤ 249) :
    PoolMessageCS.serialize_into c (.Connect wt ay mj mn pt nm ad) []
      = .ok (128 :: wt :: ay :: mj :: mn :: pt :: nm.val.length :: (nm.val ++ ad.val))
  ∧ PoolMessageCS.deserialize
      (128 :: wt :: ay :: mj :: mn :: pt :: nm.val.length :: (nm.val ++ ad.val))
      = .ok (.Connect (P := P) wt ay mj mn pt nm ad) := by
  have hmod : nm.val.length % 256 = nm.val.length := Nat.mod_eq_of_lt (by omega)
  constructor
  · simp [PoolMessageCS.serialize_into, PoolMessageCS.serialize_data_into,
      PoolMessageCS.id, hmod]
  · have hidx : (wt :: ay :: mj :: mn :: pt :: nm.val.length ::
        (nm.val ++ ad.val))[5]? = some nm.val.length := by
      simp
    have hwrap : (6 + nm.val.length) % 256 = 6 + nm.val.length :=
      Nat.mod_eq_of_lt (by omega)
    have h1 : sliceRange (wt :: ay :: mj :: mn :: pt :: nm.val.length ::
          (nm.val ++ ad.val)) 6 (6 + nm.val.length) = some nm.val :=
      sliceRange_of_append (p := [wt, ay, mj, mn, pt, nm.val.length])
        (q := nm.val) (r := ad.val) (by simp) (by simp) (by omega) (by omega)
    have h2 : sliceFrom (wt :: ay :: mj :: mn :: pt :: nm.val.length ::
          (nm.val ++ ad.val)) (6 + nm.val.length) = some ad.val :=
      sliceFrom_of_append
        (p := [wt, ay, mj, mn, pt, nm.val.length] ++ nm.val) (q := ad.val)
        (by simp) (by simp; omega)
    simp [PoolMessageCS.deserialize, hidx, hwrap, h1, h2, fromUtf8_of_valid]

lemma cs_roundtrip_submit_buffer {P : Type} (c : BytesCodec P)
    (wid jid : Nat) (pb : List Nat) (hw : wid < 4294967296)
    (hj : jid < 18446744073709551616) :
    PoolMessageCS.serialize_into c (.Submit wid jid (.buffer pb)) []
      = .ok (129 :: (u32ToLeBytes wid ++ (u64ToLeBytes jid ++ pb)))
  ∧ PoolMessageCS.deserialize
      (129 :: (u32ToLeBytes wid ++ (u64ToLeBytes jid ++ pb)))
      = .ok (.Submit (P := P) wid jid (.buffer pb)) := by
  constructor
  · simp [PoolMessageCS.serialize_into, PoolMessageCS.serialize_data_into,
      PoolMessageCS.id, Data.serialize_blocking_into]
  · have h1 : sliceRange (u32ToLeBytes wid ++ (u64ToLeBytes jid ++ pb)) 0 4
        = some (u32ToLeBytes wid) :=
      sliceRange_of_append (p := []) (q := u32ToLeBytes wid)
        (r := u64ToLeBytes jid ++ pb) (by simp) (by simp)
        (by simp [length_u32ToLeBytes]) (by omega)
    have h2 : sliceRange (u32ToLeBytes wid ++ (u64ToLeBytes jid ++ pb)) 4 12
        = some (u64ToLeBytes jid) :=
      sliceRange_of_append (p := u32ToLeBytes wid) (q := u64ToLeBytes jid)
        (r := pb) (by simp) (by simp [length_u32ToLeBytes])
        (by simp [length_u64ToLeBytes]) (by omega)
    have h3 : sliceFrom (u32ToLeBytes wid ++ (u64ToLeBytes jid ++ pb)) 12
        = some pb :=
      sliceFrom_of_append (p := u32ToLeBytes wid ++ u64ToLeBytes jid)
        (q := pb) (by simp)
        (by simp [length_u32ToLeBytes, length_u64ToLeBytes])
    simp [PoolMessageCS.deserialize, h1, h2, h3,
      fromLeBytes_u32ToLeBytes_of_lt hw, fromLeBytes_u64ToLeBytes_of_lt hj]

/-- A `Submit` whose payload is in the `Object` (materialized) state comes
back from the wire in the `Buffer` state, holding the payload's canonical
bytes. -/
lemma cs_roundtrip_submit_object {P : Type} (c : BytesCodec P)
    (wid jid : Nat) (x : P) (xb : List Nat) (hw : wid < 4294967296)
    (hj : jid < 18446744073709551616) (hx : c.toBytesLe x = .ok xb) :
    PoolMessageCS.serialize_into c (.Submit wid jid (.object x)) []
      = .ok (129 :: (u32ToLeBytes wid ++ (u64ToLeBytes jid ++ xb)))
  ∧ PoolMessageCS.deserialize
      (129 :: (u32ToLeBytes wid ++ (u64ToLeBytes jid ++ xb)))
      = .ok (.Submit (P := P) wid jid (.buffer xb)) := by
  refine ⟨?_, (cs_roundtrip_submit_buffer c wid jid xb hw hj).2⟩
  simp [PoolMessageCS.serialize_into, PoolMessageCS.serialize_data_into,
    PoolMessageCS.id, Data.serialize_blocking_into, hx]

lemma cs_roundtrip_disConnect {P : Type} (c : BytesCodec P) (i : Nat)
    (hi : i < 4294967296) :
    PoolMessageCS.serialize_into c (.DisConnect i) []
      = .ok (130 :: u32ToLeBytes i)
  ∧ PoolMessageCS.deserialize (130 :: u32ToLeBytes i)
      = .ok (.DisConnect (P := P) i) := by
  constructor
  · simp [PoolMessageCS.serialize_into, PoolMessageCS.serialize_data_into,
      PoolMessageCS.id]
  · have : PoolMessageCS.bincodeDeserU32 (u32ToLeBytes i) = .ok i := by
      rw [PoolMessageCS.bincodeDeserU32, if_neg (by simp [length_u32ToLeBytes])]
      have ht : (u32ToLeBytes i).take 4 = u32ToLeBytes i :=
        List.take_of_length_le (by simp [length_u32ToLeBytes])
      rw [ht, fromLeBytes_u32ToLeBytes_of_lt hi]
    simp [PoolMessageCS.deserialize, this]

/-- Round trip for every client → server message in valid domain ranges. -/
lemma cs_roundtrip_valid {P : Type} [DecidableEq P] (c : BytesCodec P)
    (m : PoolMessageCS P) (h : csValid m = true) :
    ∃ b, PoolMessageCS.serialize_into c m [] = .ok b
       ∧ PoolMessageCS.deserialize b = .ok m := by
  cases m with
  | Connect wt ay mj mn pt nm ad =>
    simp only [csValid, Bool.and_eq_true, decide_eq_true_eq] at h
    exact ⟨_, cs_roundtrip_connect c wt ay mj mn pt nm ad h.2⟩
  | Submit wid jid d =>
    cases d with
    | object x => simp [csValid] at h
    | buffer pb =>
      simp only [csValid, Bool.and_eq_true, decide_eq_true_eq] at h
      exact ⟨_, cs_roundtrip_submit_buffer c wid jid pb h.1 h.2⟩
  | DisConnect i =>
    simp only [csValid, decide_eq_true_eq] at h
    exact ⟨_, cs_roundtrip_disConnect c i h⟩
  | Ping =>
    refine ⟨[131], ?_, ?_⟩ <;>
      simp [PoolMessageCS.serialize_into, PoolMessageCS.serialize_data_into,
        PoolMessageCS.id, PoolMessageCS.deserialize]
  | Unused => simp [csValid] at h

/-! ### Framing decoder lemmas -/

lemma decodeSC_needMore_short {E : Type} (c : ECodec E) {s : List Nat}
    (h : s.length < 4) : decodeSC c s = (.needMore, s) := by
  simp [decodeSC, h]

lemma decodeSC_tooLarge {E : Type} (c : ECodec E) {s : List Nat}
    (h4 : 4 ≤ s.length)
    (hbig : MAXIMUM_MESSAGE_SIZE < fromLeBytes (s.take 4)) :
    decodeSC c s = (.err .tooLarge, s) := by
  have h1 : ¬s.length < 4 := by omega
  simp [decodeSC, h1, hbig]

lemma decodeSC_needMore_incomplete {E : Type} (c : ECodec E) {s : List Nat}
    (h4 : 4 ≤ s.length)
    (hmax : fromLeBytes (s.take 4) ≤ MAXIMUM_MESSAGE_SIZE)
    (hinc : s.length < 4 + fromLeBytes (s.take 4)) :
    decodeSC c s = (.needMore, s) := by
  have h1 : ¬s.length < 4 := by omega
  have h2 : ¬MAXIMUM_MESSAGE_SIZE < fromLeBytes (s.take 4) := by omega
  simp [decodeSC, h1, h2, hinc]

lemma decodeSC_complete {E : Type} (c : ECodec E) {s : List Nat}
    (h4 : 4 ≤ s.length)
    (hmax : fromLeBytes (s.take 4) ≤ MAXIMUM_MESSAGE_SIZE)
    (hcomp : 4 + fromLeBytes (s.take 4) ≤ s.length) :
    decodeSC c s =
      match PoolMessageSC.deserialize c
          ((s.drop 4).take (fromLeBytes (s.take 4))) with
      | .ok m => (.msg m, s.drop (4 + fromLeBytes (s.take 4)))
      | .err => (.err .invalidData, s.drop (4 + fromLeBytes (s.take 4)))
      | .panicked => (.panicked, s) := by
  have h1 : ¬s.length < 4 := by omega
  have h2 : ¬MAXIMUM_MESSAGE_SIZE < fromLeBytes (s.take 4) := by omega
  have h3 : ¬s.length < 4 + fromLeBytes (s.take 4) := by omega
  simp [decodeSC, h1, h2, h3]

lemma decodeSC_msg_inv {E : Type} {c : ECodec E} {s r : List Nat}
    {m : PoolMessageSC E} (h : decodeSC c s = (.msg m, r)) :
    4 ≤ s.length ∧ fromLeBytes (s.take 4) ≤ MAXIMUM_MESSAGE_SIZE ∧
    4 + fromLeBytes (s.take 4) ≤ s.length ∧
    r = s.drop (4 + fromLeBytes (s.take 4)) := by
  by_cases h1 : s.length < 4
  · rw [decodeSC_needMore_short c h1] at h
    simp at h
  by_cases h2 : MAXIMUM_MESSAGE_SIZE < fromLeBytes (s.take 4)
  · rw [decodeSC_tooLarge c (by omega) h2] at h
    simp at h
  by_cases h3 : s.length < 4 + fromLeBytes (s.take 4)
  · rw [decodeSC_needMore_incomplete c (by omega) (by omega) h3] at h
    simp at h
  rw [decodeSC_complete c (by omega) (by omega) (by omega)] at h
  refine ⟨by omega, by omega, by omega, ?_⟩
  cases hd : PoolMessageSC.deserialize c
      ((s.drop 4).take (fromLeBytes (s.take 4))) <;> rw [hd] at h <;>
    simp at h
  exact h.2.symm

lemma decodeSC_split_needMore {E : Type} {c : ECodec E} {s : List Nat}
    {m : PoolMessageSC E} (h : decodeSC c s = (.msg m, [])) {k : Nat}
    (hk : k < s.length) :
    decodeSC c (s.take k) = (.needMore, s.take k) := by
  obtain ⟨h4, hmax, hcomp, hr⟩ := decodeSC_msg_inv h
  have hnil : s.drop (4 + fromLeBytes (s.take 4)) = [] := hr.symm
  have hlen : s.length = 4 + fromLeBytes (s.take 4) := by
    have := List.drop_eq_nil_iff.mp hnil
    omega
  have hklen : (s.take k).length = k := by
    simp [List.length_take]
    omega
  by_cases hk4 : k < 4
  · exact decodeSC_needMore_short c (by omega)
  · have htt : (s.take k).take 4 = s.take 4 := by
      rw [List.take_take]
      congr 1
      omega
    refine decodeSC_needMore_incomplete c (by omega) ?_ ?_
    · rw [htt]; exact hmax
    · rw [htt]; omega

lemma decodeCS_needMore_short {P : Type} {s : List Nat}
    (h : s.length < 4) : decodeCS (P := P) s = (.needMore, s) := by
  simp [decodeCS, h]

lemma decodeCS_tooLarge {P : Type} {s : List Nat}
    (h4 : 4 ≤ s.length)
    (hbig : MAXIMUM_MESSAGE_SIZE < fromLeBytes (s.take 4)) :
    decodeCS (P := P) s = (.err .tooLarge, s) := by
  have h1 : ¬s.length < 4 := by omega
  simp [decodeCS, h1, hbig]

lemma decodeCS_needMore_incomplete {P : Type} {s : List Nat}
    (h4 : 4 ≤ s.length)
    (hmax : fromLeBytes (s.take 4) ≤ MAXIMUM_MESSAGE_SIZE)
    (hinc : s.length < 4 + fromLeBytes (s.take 4)) :
    decodeCS (P := P) s = (.needMore, s) := by
  have h1 : ¬s.length < 4 := by omega
  have h2 : ¬MAXIMUM_MESSAGE_SIZE < fromLeBytes (s.take 4) := by omega
  simp [decodeCS, h1, h2, hinc]

lemma decodeCS_complete {P : Type} {s : List Nat}
    (h4 : 4 ≤ s.length)
    (hmax : fromLeBytes (s.take 4) ≤ MAXIMUM_MESSAGE_SIZE)
    (hcomp : 4 + fromLeBytes (s.take 4) ≤ s.length) :
    decodeCS (P := P) s =
      match PoolMessageCS.deserialize (P := P)
          ((s.drop 4).take (fromLeBytes (s.take 4))) with
      | .ok m => (.msg m, s.drop (4 + fromLeBytes (s.take 4)))
      | .err => (.err .invalidData, s.drop (4 + fromLeBytes (s.take 4)))
      | .panicked => (.panicked, s) := by
  have h1 : ¬s.length < 4 := by omega
  have h2 : ¬MAXIMUM_MESSAGE_SIZE < fromLeBytes (s.take 4) := by omega
  have h3 : ¬s.length < 4 + fromLeBytes (s.take 4) := by omega
  simp [decodeCS, h1, h2, h3]

lemma decodeCS_msg_inv {P : Type} {s r : List Nat}
    {m : PoolMessageCS P} (h : decodeCS s = (.msg m, r)) :
    4 ≤ s.length ∧ fromLeBytes (s.take 4) ≤ MAXIMUM_MESSAGE_SIZE ∧
    4 + fromLeBytes (s.take 4) ≤ s.length ∧
    r = s.drop (4 + fromLeBytes (s.take 4)) := by
  by_cases h1 : s.length < 4
  · rw [decodeCS_needMore_short h1] at h
    simp at h
  by_cases h2 : MAXIMUM_MESSAGE_SIZE < fromLeBytes (s.take 4)
  · rw [decodeCS_tooLarge (by omega) h2] at h
    simp at h
  by_cases h3 : s.length < 4 + fromLeBytes (s.take 4)
  · rw [decodeCS_needMore_incomplete (by omega) (by omega) h3] at h
    simp at h
  rw [decodeCS_complete (by omega) (by omega) (by omega)] at h
  refine ⟨by omega, by omega, by omega, ?_⟩
  cases hd : PoolMessageCS.deserialize (P := P)
      ((s.drop 4).take (fromLeBytes (s.take 4))) <;> rw [hd] at h <;>
    simp at h
  exact h.2.symm

lemma decodeCS_split_needMore {P : Type} {s : List Nat}
    {m : PoolMessageCS P} (h : decodeCS s = (.msg m, [])) {k : Nat}
    (hk : k < s.length) :
    decodeCS (P := P) (s.take k) = (.needMore, s.take k) := by
  obtain ⟨h4, hmax, hcomp, hr⟩ := decodeCS_msg_inv h
  have hnil : s.drop (4 + fromLeBytes (s.take 4)) = [] := hr.symm
  have hlen : s.length = 4 + fromLeBytes (s.take 4) := by
    have := List.drop_eq_nil_iff.mp hnil
    omega
  have hklen : (s.take k).length = k := by
    simp [List.length_take]
    omega
  by_cases hk4 : k < 4
  · exact decodeCS_needMore_short (by omega)
  · have htt : (s.take k).take 4 = s.take 4 := by
      rw [List.take_take]
      congr 1
      omega
    refine decodeCS_needMore_incomplete (by omega) ?_ ?_
    · rw [htt]; exact hmax
    · rw [htt]; omega

/-! ### Encoder shape lemmas -/

lemma sc_serialize_data_into_shift {E : Type} (c : ECodec E)
    (m : PoolMessageSC E) (w : List Nat) :
    PoolMessageSC.serialize_data_into c m w =
      match PoolMessageSC.serialize_data_into c m [] with
      | .ok t => .ok (w ++ t)
      | .err t => .err (w ++ t) := by
  cases m with
  | ConnectAck a address oid osig =>
    cases a
    · simp [PoolMessageSC.serialize_data_into]
    · cases oid <;> cases osig <;>
        simp [PoolMessageSC.serialize_data_into]
  | Notify j t e =>
    cases hx : c.toBytesLe e <;>
      simp [PoolMessageSC.serialize_data_into, hx]
  | ShutDown => simp [PoolMessageSC.serialize_data_into]
  | Pong => simp [PoolMessageSC.serialize_data_into]
  | Unused => simp [PoolMessageSC.serialize_data_into]

lemma sc_serialize_into_shift {E : Type} (c : ECodec E)
    (m : PoolMessageSC E) (w : List Nat) :
    PoolMessageSC.serialize_into c m w =
      match PoolMessageSC.serialize_into c m [] with
      | .ok t => .ok (w ++ t)
      | .err t => .err (w ++ t) := by
  rw [PoolMessageSC.serialize_into, PoolMessageSC.serialize_into,
    sc_serialize_data_into_shift c m (w ++ [m.id]),
    sc_serialize_data_into_shift c m ([] ++ [m.id])]
  cases PoolMessageSC.serialize_data_into c m [] <;> simp

lemma cs_serialize_data_into_shift {P : Type} (c : BytesCodec P)
    (m : PoolMessageCS P) (w : List Nat) :
    PoolMessageCS.serialize_data_into c m w =
      match PoolMessageCS.serialize_data_into c m [] with
      | .ok t => .ok (w ++ t)
      | .err t => .err (w ++ t) := by
  cases m with
  | Connect wt ay mj mn pt nm ad =>
    simp [PoolMessageCS.serialize_data_into]
  | Submit wid jid d =>
    cases d with
    | object x =>
      cases hx : c.toBytesLe x <;>
        simp [PoolMessageCS.serialize_data_into,
          Data.serialize_blocking_into, hx]
    | buffer b =>
      simp [PoolMessageCS.serialize_data_into, Data.serialize_blocking_into]
  | DisConnect i => simp [PoolMessageCS.serialize_data_into]
  | Ping => simp [PoolMessageCS.serialize_data_into]
  | Unused => simp [PoolMessageCS.serialize_data_into]

lemma cs_serialize_into_shift {P : Type} (c : BytesCodec P)
    (m : PoolMessageCS P) (w : List Nat) :
    PoolMessageCS.serialize_into c m w =
      match PoolMessageCS.serialize_into c m [] with
      | .ok t => .ok (w ++ t)
      | .err t => .err (w ++ t) := by
  rw [PoolMessageCS.serialize_into, PoolMessageCS.serialize_into,
    cs_serialize_data_into_shift c m (w ++ [m.id]),
    cs_serialize_data_into_shift c m ([] ++ [m.id])]
  cases PoolMessageCS.serialize_data_into c m [] <;> simp

lemma encodeSC_eq {E : Type} (c : ECodec E) (m : PoolMessageSC E)
    (dst : List Nat) :
    encodeSC c m dst =
      match PoolMessageSC.serialize_into c m [] with
      | .ok t =>
          .ok (u32ToLeBytes (dst.length + t.length) ++
            (dst ++ ([0, 0, 0, 0] ++ t)).drop 4)
      | .err t => .err ((dst ++ [0, 0, 0, 0]) ++ t) := by
  rw [encodeSC, sc_serialize_into_shift]
  cases PoolMessageSC.serialize_into c m [] with
  | ok t =>
    have hlen : dst.length + (t.length + 1 + 1 + 1 + 1) - 4
        = dst.length + t.length := by omega
    simp [hlen]
  | err t => simp

lemma encodeCS_eq {P : Type} (c : BytesCodec P) (m : PoolMessageCS P)
    (dst : List Nat) :
    encodeCS c m dst =
      match PoolMessageCS.serialize_into c m [] with
      | .ok t =>
          .ok (u32ToLeBytes (dst.length + t.length) ++
            (dst ++ ([0, 0, 0, 0] ++ t)).drop 4)
      | .err t => .err ((dst ++ [0, 0, 0, 0]) ++ t) := by
  rw [encodeCS, cs_serialize_into_shift]
  cases PoolMessageCS.serialize_into c m [] with
  | ok t =>
    have hlen : dst.length + (t.length + 1 + 1 + 1 + 1) - 4
        = dst.length + t.length := by omega
    simp [hlen]
  | err t => simp

lemma take4_u32 (n : Nat) (r : List Nat) :
    (u32ToLeBytes n ++ r).take 4 = u32ToLeBytes n :=
  List.take_left' (length_u32ToLeBytes n)

lemma drop4_u32 (n : Nat) (r : List Nat) :
    (u32ToLeBytes n ++ r).drop 4 = r :=
  List.drop_left' (length_u32ToLeBytes n)

lemma u32ToLeBytes_injOn {a b : Nat} (ha : a < 4294967296)
    (hb : b < 4294967296) (h : u32ToLeBytes a = u32ToLeBytes b) : a = b := by
  have hf := congrArg fromLeBytes h
  rwa [fromLeBytes_u32ToLeBytes_of_lt ha, fromLeBytes_u32ToLeBytes_of_lt hb]
    at hf

/-- The facts behind the absolute-position backfill of `encode`: with the
message's standalone serialization `t`, an empty destination yields a
correct prefix, while a destination already holding `dst` yields a prefix
covering `dst` as well and leaves the appended frame's own prefix slot as
the four zero placeholder bytes. -/
lemma backfill_facts (dst t : List Nat) :
    ((u32ToLeBytes t.length ++ t).take 4
        = u32ToLeBytes ((u32ToLeBytes t.length ++ t).length - 4))
  ∧ ((u32ToLeBytes (dst.length + t.length) ++
        (dst ++ ([0, 0, 0, 0] ++ t)).drop 4).take 4
        = u32ToLeBytes (dst.length + ((u32ToLeBytes t.length ++ t).length - 4)))
  ∧ (4 ≤ dst.length →
        (u32ToLeBytes (dst.length + t.length) ++
          (dst ++ ([0, 0, 0, 0] ++ t)).drop 4).drop 4
        = dst.drop 4 ++ [0, 0, 0, 0] ++ (u32ToLeBytes t.length ++ t).drop 4)
  ∧ (dst ≠ [] →
      dst.length + ((u32ToLeBytes t.length ++ t).length - 4) < 4294967296 →
        (u32ToLeBytes (dst.length + t.length) ++
          (dst ++ ([0, 0, 0, 0] ++ t)).drop 4).take 4
        ≠ (u32ToLeBytes t.length ++ t).take 4) := by
  have hul : (u32ToLeBytes t.length ++ t).length - 4 = t.length := by
    simp [length_u32ToLeBytes]
  refine ⟨?_, ?_, ?_, ?_⟩
  · rw [hul, take4_u32]
  · rw [hul, take4_u32]
  · intro h4
    rw [drop4_u32, drop4_u32, List.drop_append_eq_append_drop]
    have h0 : 4 - dst.length = 0 := by omega
    rw [h0, List.drop_zero, List.append_assoc]
  · intro hne hlt
    rw [hul] at hlt
    rw [take4_u32, take4_u32]
    intro heq
    have hinj := u32ToLeBytes_injOn (by omega) (by omega) heq
    have h0 : dst.length = 0 := by omega
    exact hne (List.length_eq_zero.mp h0)

/-! ### Concrete values used in closed statements -/

/-- A concrete 32-byte address. -/
def addr32 : Address := ⟨List.replicate 32 9, by decide⟩

/-- A concrete short ASCII string (the bytes of "test"). -/
def strTest : RustString := ⟨[116, 101, 115, 116], by decide⟩

set_option maxRecDepth 8192 in
/-- A 250-byte ASCII name: short enough for the `u8` length prefix but
long enough to overflow the decoder's `6 + data[5]` offset arithmetic. -/
def name250 : RustString := ⟨List.replicate 250 97, by decide⟩

set_option maxRecDepth 8192 in
/-- A 256-byte ASCII name: its `u8` length prefix wraps to 0. -/
def name256 : RustString := ⟨List.replicate 256 97, by decide⟩

/-- A one-byte ASCII string. -/
def oneChar : RustString := ⟨[98], by decide⟩

/-- The empty string. -/
def emptyStr : RustString := ⟨[], by decide⟩

set_option maxRecDepth 8192 in
/-- The string the decoder wrongly takes for the address when a 256-byte
name's length prefix wraps: the whole name followed by the real address. -/
def longStr : RustString := ⟨List.replicate 256 97 ++ [98], by decide⟩

/-! ### Claim theorems -/

/-- C2: the claim says both deserializers return a `Result` error on every
input and never panic. The code violates this: on bodies too short for the
matched variant's fixed fields, the fixed-offset slice and index
expressions (`&data[1..=32]`, `data[5]`) go out of bounds and panic. The
server → client body `[0, 0]` (wire frame `[2,0,0,0, 0,0]`) and the
client → server body `[128]` (wire frame `[1,0,0,0, 128]`) are concrete
failing inputs, evaluated here. -/
theorem c2_deserialize_panics_on_short_body :
    PoolMessageSC.deserialize unitEC [0, 0] = .panicked
  ∧ PoolMessageCS.deserialize (P := Unit) [128] = .panicked
  ∧ decodeSC unitEC [2, 0, 0, 0, 0, 0] = (.panicked, [2, 0, 0, 0, 0, 0])
  ∧ decodeCS (P := Unit) [1, 0, 0, 0, 128] = (.panicked, [1, 0, 0, 0, 128]) := by
  refine ⟨by decide, by decide, by decide, by decide⟩

/-- C3: the claim predicts wire bytes `len=4, id=130, [7,0,0,0]` for
`DisConnect(7)`. The encoder actually writes length prefix `5`, because
`dst[4..].len()` counts the one-byte message id as well as the four id
bytes. The predicted frame `[4,0,0,0,130,7,0,0,0]` is not produced. -/
theorem c3_disconnect_frame_counterexample :
    encodeCS unitBC (.DisConnect 7) [] = .ok [5, 0, 0, 0, 130, 7, 0, 0, 0]
  ∧ WResult.ok [5, 0, 0, 0, 130, 7, 0, 0, 0]
      ≠ .ok [4, 0, 0, 0, 130, 7, 0, 0, 0] := by
  refine ⟨by decide, by decide⟩

/-- C3 (amended): encoding client → server `DisConnect(7)` produces the
frame `len=5, id=130, [7,0,0,0]` — the 4-byte little-endian length prefix
counts the id byte plus the 4-byte little-endian id field. -/
theorem c3_disconnect_frame_len5 :
    encodeCS unitBC (.DisConnect 7) []
      = .ok ([5, 0, 0, 0] ++ [130] ++ [7, 0, 0, 0]) := by decide

/-- C4: for every buffer of at least 4 bytes whose little-endian length
prefix exceeds `MAXIMUM_MESSAGE_SIZE` (512), both decoders return the
oversize framing error — with no completeness requirement on the buffer,
so the oversize check precedes the completeness check. -/
theorem c4_oversize_before_completeness {E P : Type} (c : ECodec E)
    (s : List Nat) (h4 : 4 ≤ s.length)
    (hbig : MAXIMUM_MESSAGE_SIZE < fromLeBytes (s.take 4)) :
    decodeSC c s = (.err .tooLarge, s)
  ∧ decodeCS (P := P) s = (.err .tooLarge, s) :=
  ⟨decodeSC_tooLarge c h4 hbig, decodeCS_tooLarge h4 hbig⟩

/-- C4 witness: the 4-byte buffer `[255,255,255,255]` declares length
4294967295 > 512 while holding far fewer than `4 + length` bytes, and is
rejected by both decoders with the framing error. -/
theorem c4_oversize_witness :
    (4 ≤ [255, 255, 255, 255].length
      ∧ MAXIMUM_MESSAGE_SIZE < fromLeBytes ([255, 255, 255, 255].take 4))
  ∧ (decodeSC unitEC [255, 255, 255, 255]
        = (.err .tooLarge, [255, 255, 255, 255])
      ∧ decodeCS (P := Unit) [255, 255, 255, 255]
        = (.err .tooLarge, [255, 255, 255, 255])) :=
  ⟨⟨by decide, by decide⟩,
    c4_oversize_before_completeness unitEC [255, 255, 255, 255]
      (by decide) (by decide)⟩

/-- C7: serializing `ConnectAck` with `accept=true` but a missing id or
signature fails at `serialize_data_into` time with the writer unchanged
(no data bytes written); with both present it writes discriminant byte 1,
the address, the little-endian id and the signature; with `accept=false`
it writes discriminant byte 0 followed by only the address, whatever the
optional fields hold. -/
theorem c7_connectAck_serialize {E : Type} (c : ECodec E) (a : Address)
    (i : Nat) (s : RustString) (oid : Option Nat) (osig : Option RustString)
    (w : List Nat) :
    PoolMessageSC.serialize_data_into c (.ConnectAck true a none none) w
      = .err w
  ∧ PoolMessageSC.serialize_data_into c (.ConnectAck true a none (some s)) w
      = .err w
  ∧ PoolMessageSC.serialize_data_into c (.ConnectAck true a (some i) none) w
      = .err w
  ∧ PoolMessageSC.serialize_data_into c (.ConnectAck true a (some i) (some s)) w
      = .ok (w ++ [1] ++ bincodeSerAddress a ++ u32ToLeBytes i ++ s.val)
  ∧ PoolMessageSC.serialize_data_into c (.ConnectAck false a oid osig) w
      = .ok (w ++ [0] ++ bincodeSerAddress a) := by
  refine ⟨rfl, rfl, rfl, rfl, ?_⟩
  cases oid <;> cases osig <;> rfl

/-- C8: `Data::serialize` on `Buffer(b)` returns the buffer unchanged and
does not dispatch to the worker pool; `serialize_blocking_into` on
`Buffer(b)` appends exactly the bytes of `b` to the writer; and
`deserialize_blocking` on `Object(x)` returns the object directly — for
every payload codec, so the byte codec is never invoked. -/
theorem c8_data_passthrough {T : Type} (c : BytesCodec T) (b : List Nat)
    (x : T) (w : List Nat) :
    Data.serialize c (.buffer b) = .ok b
  ∧ Data.serializeSpawns (T := T) (.buffer b) = false
  ∧ Data.serialize_blocking_into c (.buffer b) w = .ok (w ++ b)
  ∧ Data.deserialize_blocking c (.object x) = .ok x :=
  ⟨rfl, rfl, rfl, rfl⟩

/-- C1 counterexample: a `Submit` whose `DeferredPayload` field is in the
Materialized (`Data::Object`) state does not round trip to an equal
message — the decoder always reconstructs the payload in the Raw
(`Data::Buffer`) state, and the two states are unequal values. -/
theorem c1_materialized_counterexample :
    PoolMessageCS.serialize_into unitBC (.Submit 0 0 (.object ())) []
      = .ok [129, 0, 0, 0, 0, 0, 0, 0, 0, 0, 0, 0, 0]
  ∧ PoolMessageCS.deserialize (P := Unit)
      [129, 0, 0, 0, 0, 0, 0, 0, 0, 0, 0, 0, 0]
      = .ok (.Submit 0 0 (.buffer []))
  ∧ PoolMessageCS.Submit (P := Unit) 0 0 (.buffer [])
      ≠ .Submit 0 0 (.object ()) := by
  refine ⟨by decide, by decide, by decide⟩

/-- C1 (amended): for every message variant of both schemas other than the
internal `Unused` placeholders, with field values in valid domain ranges
(integer fields within their Rust widths, `ConnectAck` optional fields
present exactly when the accept flag is set, `Connect.custom_name` at most
249 bytes) and any payload field in the Raw (`Data::Buffer`) state,
`deserialize (serialize m) = m`; a payload in the Materialized
(`Data::Object`) state instead comes back in the Raw state holding the
payload's canonical bytes — byte-equivalent, but not an equal value. -/
theorem c1_roundtrip_up_to_payload_state {E P : Type} [DecidableEq E]
    [DecidableEq P] (c : ECodec E) (d : BytesCodec P)
    (m1 : PoolMessageSC E) (m2 : PoolMessageCS P)
    (h1 : scValid c m1 = true) (h2 : csValid m2 = true)
    (wid jid : Nat) (x : P) (xb : List Nat) (hw : wid < 4294967296)
    (hj : jid < 18446744073709551616) (hx : d.toBytesLe x = .ok xb) :
    (∃ b, PoolMessageSC.serialize_into c m1 [] = .ok b
        ∧ PoolMessageSC.deserialize c b = .ok m1)
  ∧ (∃ b, PoolMessageCS.serialize_into d m2 [] = .ok b
        ∧ PoolMessageCS.deserialize b = .ok m2)
  ∧ (∃ b, PoolMessageCS.serialize_into d (.Submit wid jid (.object x)) []
        = .ok b
      ∧ PoolMessageCS.deserialize (P := P) b
          = .ok (.Submit wid jid (.buffer xb))
      ∧ PoolMessageCS.Submit (P := P) wid jid (.buffer xb)
          ≠ .Submit wid jid (.object x)) := by
  refine ⟨sc_roundtrip_valid c m1 h1, cs_roundtrip_valid d m2 h2, ?_⟩
  obtain ⟨hs, hd⟩ := cs_roundtrip_submit_object d wid jid x xb hw hj hx
  exact ⟨_, hs, hd, by simp⟩

/-- C1 witness: the amended round trip instantiated at a concrete accepted
`ConnectAck`, a concrete `Connect`, and a concrete materialized `Submit`. -/
theorem c1_roundtrip_witness :
    (scValid unitEC (.ConnectAck true addr32 (some 1) (some strTest)) = true
      ∧ csValid (P := Unit) (.Connect 0 1 0 1 0 strTest strTest) = true
      ∧ (0 : Nat) < 4294967296 ∧ (0 : Nat) < 18446744073709551616
      ∧ unitBC.toBytesLe () = .ok [])
  ∧ ((∃ b, PoolMessageSC.serialize_into unitEC
          (.ConnectAck true addr32 (some 1) (some strTest)) [] = .ok b
        ∧ PoolMessageSC.deserialize unitEC b
          = .ok (.ConnectAck true addr32 (some 1) (some strTest)))
    ∧ (∃ b, PoolMessageCS.serialize_into unitBC
          (.Connect 0 1 0 1 0 strTest strTest) [] = .ok b
        ∧ PoolMessageCS.deserialize (P := Unit) b
          = .ok (.Connect 0 1 0 1 0 strTest strTest))
    ∧ (∃ b, PoolMessageCS.serialize_into unitBC (.Submit 0 0 (.object ())) []
          = .ok b
        ∧ PoolMessageCS.deserialize (P := Unit) b
            = .ok (.Submit 0 0 (.buffer []))
        ∧ PoolMessageCS.Submit (P := Unit) 0 0 (.buffer [])
            ≠ .Submit 0 0 (.object ()))) :=
  ⟨⟨by decide, by decide, by decide, by decide, by decide⟩,
    c1_roundtrip_up_to_payload_state unitEC unitBC
      (.ConnectAck true addr32 (some 1) (some strTest))
      (.Connect 0 1 0 1 0 strTest strTest) (by decide) (by decide)
      0 0 () [] (by decide) (by decide) (by decide)⟩

/-- C5: for every buffer that decodes to exactly one message with nothing
left over, feeding the decoder any strict leading piece yields the
need-more-bytes outcome with the buffered bytes unmodified, and feeding
the leading piece concatenated with the remainder yields the same single
message as feeding all the bytes at once — for both directions. -/
theorem c5_split_feed {E P : Type} (c : ECodec E) (f g : List Nat)
    (j k : Nat) (m1 : PoolMessageSC E) (m2 : PoolMessageCS P)
    (h1 : decodeSC c f = (.msg m1, [])) (hj : j < f.length)
    (h2 : decodeCS g = (.msg m2, [])) (hk : k < g.length) :
    (decodeSC c (f.take j) = (.needMore, f.take j)
      ∧ decodeSC c (f.take j ++ f.drop j) = (.msg m1, []))
  ∧ (decodeCS (P := P) (g.take k) = (.needMore, g.take k)
      ∧ decodeCS (g.take k ++ g.drop k) = (.msg m2, [])) := by
  refine ⟨⟨decodeSC_split_needMore h1 hj, ?_⟩,
    ⟨decodeCS_split_needMore h2 hk, ?_⟩⟩
  · rw [List.take_append_drop]
    exact h1
  · rw [List.take_append_drop]
    exact h2

/-- C5 witness: a `Pong` frame and a `Ping` frame, each split after the
first 3 bytes. -/
theorem c5_split_feed_witness :
    (decodeSC unitEC [1, 0, 0, 0, 3] = (.msg .Pong, [])
      ∧ 3 < [1, 0, 0, 0, 3].length
      ∧ decodeCS (P := Unit) [1, 0, 0, 0, 131] = (.msg .Ping, [])
      ∧ 3 < [1, 0, 0, 0, 131].length)
  ∧ ((decodeSC unitEC ([1, 0, 0, 0, 3].take 3)
        = (.needMore, [1, 0, 0, 0, 3].take 3)
      ∧ decodeSC unitEC ([1, 0, 0, 0, 3].take 3 ++ [1, 0, 0, 0, 3].drop 3)
        = (.msg .Pong, []))
    ∧ (decodeCS (P := Unit) ([1, 0, 0, 0, 131].take 3)
        = (.needMore, [1, 0, 0, 0, 131].take 3)
      ∧ decodeCS (P := Unit)
          ([1, 0, 0, 0, 131].take 3 ++ [1, 0, 0, 0, 131].drop 3)
        = (.msg .Ping, []))) :=
  ⟨⟨by decide, by decide, by decide, by decide⟩,
    c5_split_feed unitEC [1, 0, 0, 0, 3] [1, 0, 0, 0, 131] 3 3 .Pong .Ping
      (by decide) (by decide) (by decide) (by decide)⟩

/-- C6: any complete, size-admissible frame whose body fails the fed
decoder's own schema-level deserialize makes that decoder return the
decode error with exactly `4 + length` bytes removed from the front of
the buffer — stated with an independent buffer per decoder, since a body
malformed for one direction may be a valid message of the other — while
the oversized-length framing error consumes no bytes in either decoder. -/
theorem c6_malformed_frame_consumed {E P : Type} (c : ECodec E)
    (s u t : List Nat) (h4 : 4 ≤ s.length)
    (hmax : fromLeBytes (s.take 4) ≤ MAXIMUM_MESSAGE_SIZE)
    (hcomp : 4 + fromLeBytes (s.take 4) ≤ s.length)
    (hdeSC : PoolMessageSC.deserialize c
        ((s.drop 4).take (fromLeBytes (s.take 4))) = .err)
    (h4u : 4 ≤ u.length)
    (hmaxu : fromLeBytes (u.take 4) ≤ MAXIMUM_MESSAGE_SIZE)
    (hcompu : 4 + fromLeBytes (u.take 4) ≤ u.length)
    (hdeCS : PoolMessageCS.deserialize (P := P)
        ((u.drop 4).take (fromLeBytes (u.take 4))) = .err)
    (h4t : 4 ≤ t.length)
    (hbig : MAXIMUM_MESSAGE_SIZE < fromLeBytes (t.take 4)) :
    decodeSC c s = (.err .invalidData, s.drop (4 + fromLeBytes (s.take 4)))
  ∧ decodeCS (P := P) u
      = (.err .invalidData, u.drop (4 + fromLeBytes (u.take 4)))
  ∧ decodeSC c t = (.err .tooLarge, t)
  ∧ decodeCS (P := P) t = (.err .tooLarge, t) := by
  refine ⟨?_, ?_, decodeSC_tooLarge c h4t hbig, decodeCS_tooLarge h4t hbig⟩
  · rw [decodeSC_complete c h4 hmax hcomp, hdeSC]
  · rw [decodeCS_complete h4u hmaxu hcompu, hdeCS]

/-- C6 witness: the frame `[5,0,0,0, 130,7,0,0,0]` carries id 130, unknown
to the server → client schema (though it is a valid client → server
`DisConnect`), so the SC decoder errors and consumes all 9 bytes; the
frame `[2,0,0,0, 131,1]` is a `Ping` with a trailing byte, which the CS
schema rejects, so the CS decoder errors and consumes all 6 bytes. The
buffer `[255,255,255,255]` declares an oversized length and is left
untouched by both decoders. -/
theorem c6_malformed_frame_witness :
    (4 ≤ [5, 0, 0, 0, 130, 7, 0, 0, 0].length
      ∧ fromLeBytes ([5, 0, 0, 0, 130, 7, 0, 0, 0].take 4)
          ≤ MAXIMUM_MESSAGE_SIZE
      ∧ 4 + fromLeBytes ([5, 0, 0, 0, 130, 7, 0, 0, 0].take 4)
          ≤ [5, 0, 0, 0, 130, 7, 0, 0, 0].length
      ∧ PoolMessageSC.deserialize unitEC
          (([5, 0, 0, 0, 130, 7, 0, 0, 0].drop 4).take
            (fromLeBytes ([5, 0, 0, 0, 130, 7, 0, 0, 0].take 4)))
          = .err
      ∧ 4 ≤ [2, 0, 0, 0, 131, 1].length
      ∧ fromLeBytes ([2, 0, 0, 0, 131, 1].take 4) ≤ MAXIMUM_MESSAGE_SIZE
      ∧ 4 + fromLeBytes ([2, 0, 0, 0, 131, 1].take 4)
          ≤ [2, 0, 0, 0, 131, 1].length
      ∧ PoolMessageCS.deserialize (P := Unit)
          (([2, 0, 0, 0, 131, 1].drop 4).take
            (fromLeBytes ([2, 0, 0, 0, 131, 1].take 4)))
          = .err
      ∧ 4 ≤ [255, 255, 255, 255].length
      ∧ MAXIMUM_MESSAGE_SIZE < fromLeBytes ([255, 255, 255, 255].take 4))
  ∧ (decodeSC unitEC [5, 0, 0, 0, 130, 7, 0, 0, 0]
      = (.err .invalidData,
          [5, 0, 0, 0, 130, 7, 0, 0, 0].drop
            (4 + fromLeBytes ([5, 0, 0, 0, 130, 7, 0, 0, 0].take 4)))
    ∧ decodeCS (P := Unit) [2, 0, 0, 0, 131, 1]
      = (.err .invalidData,
          [2, 0, 0, 0, 131, 1].drop
            (4 + fromLeBytes ([2, 0, 0, 0, 131, 1].take 4)))
    ∧ decodeSC unitEC [255, 255, 255, 255]
      = (.err .tooLarge, [255, 255, 255, 255])
    ∧ decodeCS (P := Unit) [255, 255, 255, 255]
      = (.err .tooLarge, [255, 255, 255, 255])) :=
  ⟨⟨by decide, by decide, by decide, by decide, by decide, by decide,
      by decide, by decide, by decide, by decide⟩,
    c6_malformed_frame_consumed unitEC [5, 0, 0, 0, 130, 7, 0, 0, 0]
      [2, 0, 0, 0, 131, 1] [255, 255, 255, 255]
      (by decide) (by decide) (by decide) (by decide) (by decide)
      (by decide) (by decide) (by decide) (by decide) (by decide)⟩

/-- C9: the frame invariant — prefix equals the byte length of the
message that follows it — holds exactly when `encode` is called with an
empty destination. `encode` backfills positions 0..4 of the destination
and measures everything after absolute position 4, so on a destination
already holding bytes it overwrites the first four bytes with a prefix
covering the old contents too, while the newly appended frame keeps the
four zero placeholder bytes instead of its own correct prefix. Both
encoders behave identically. -/
theorem c9_encode_absolute_backfill {E P : Type} (c : ECodec E)
    (d : BytesCodec P) (m1 : PoolMessageSC E) (m2 : PoolMessageCS P)
    (u1 u2 b1 b2 dst1 dst2 : List Nat)
    (hu1 : encodeSC c m1 [] = .ok u1) (hb1 : encodeSC c m1 dst1 = .ok b1)
    (hu2 : encodeCS d m2 [] = .ok u2) (hb2 : encodeCS d m2 dst2 = .ok b2) :
    (u1.take 4 = u32ToLeBytes (u1.length - 4)
      ∧ b1.take 4 = u32ToLeBytes (dst1.length + (u1.length - 4))
      ∧ (4 ≤ dst1.length →
          b1.drop 4 = dst1.drop 4 ++ [0, 0, 0, 0] ++ u1.drop 4)
      ∧ (dst1 ≠ [] → dst1.length + (u1.length - 4) < 4294967296 →
          b1.take 4 ≠ u1.take 4))
  ∧ (u2.take 4 = u32ToLeBytes (u2.length - 4)
      ∧ b2.take 4 = u32ToLeBytes (dst2.length + (u2.length - 4))
      ∧ (4 ≤ dst2.length →
          b2.drop 4 = dst2.drop 4 ++ [0, 0, 0, 0] ++ u2.drop 4)
      ∧ (dst2 ≠ [] → dst2.length + (u2.length - 4) < 4294967296 →
          b2.take 4 ≠ u2.take 4)) := by
  constructor
  · rw [encodeSC_eq] at hu1 hb1
    cases ht : PoolMessageSC.serialize_into c m1 [] with
    | err t =>
      rw [ht] at hu1
      simp at hu1
    | ok t =>
      rw [ht] at hu1 hb1
      simp only [List.nil_append, List.length_nil, Nat.zero_add,
        List.cons_append, List.drop_succ_cons, List.drop_zero,
        WResult.ok.injEq] at hu1 hb1
      subst hu1
      subst hb1
      exact backfill_facts dst1 t
  · rw [encodeCS_eq] at hu2 hb2
    cases ht : PoolMessageCS.serialize_into d m2 [] with
    | err t =>
      rw [ht] at hu2
      simp at hu2
    | ok t =>
      rw [ht] at hu2 hb2
      simp only [List.nil_append, List.length_nil, Nat.zero_add,
        List.cons_append, List.drop_succ_cons, List.drop_zero,
        WResult.ok.injEq] at hu2 hb2
      subst hu2
      subst hb2
      exact backfill_facts dst2 t

/-- C9 witness: encoding `Pong` into a buffer already holding a `Pong`
frame, and `DisConnect(7)` into a buffer already holding a `Ping` frame:
the first four bytes are overwritten and the appended frames keep their
zero placeholders. -/
theorem c9_encode_backfill_witness :
    (encodeSC unitEC .Pong [] = .ok [1, 0, 0, 0, 3]
      ∧ encodeSC unitEC .Pong [1, 0, 0, 0, 3]
          = .ok [6, 0, 0, 0, 3, 0, 0, 0, 0, 3]
      ∧ encodeCS unitBC (.DisConnect 7) [] = .ok [5, 0, 0, 0, 130, 7, 0, 0, 0]
      ∧ encodeCS unitBC (.DisConnect 7) [1, 0, 0, 0, 131]
          = .ok [10, 0, 0, 0, 131, 0, 0, 0, 0, 130, 7, 0, 0, 0])
  ∧ ((([1, 0, 0, 0, 3] : List Nat).take 4
        = u32ToLeBytes (([1, 0, 0, 0, 3] : List Nat).length - 4)
      ∧ ([6, 0, 0, 0, 3, 0, 0, 0, 0, 3] : List Nat).take 4
        = u32ToLeBytes (([1, 0, 0, 0, 3] : List Nat).length +
            (([1, 0, 0, 0, 3] : List Nat).length - 4))
      ∧ (4 ≤ ([1, 0, 0, 0, 3] : List Nat).length →
          ([6, 0, 0, 0, 3, 0, 0, 0, 0, 3] : List Nat).drop 4
            = ([1, 0, 0, 0, 3] : List Nat).drop 4 ++ [0, 0, 0, 0] ++
              ([1, 0, 0, 0, 3] : List Nat).drop 4)
      ∧ (([1, 0, 0, 0, 3] : List Nat) ≠ [] →
          ([1, 0, 0, 0, 3] : List Nat).length +
            (([1, 0, 0, 0, 3] : List Nat).length - 4) < 4294967296 →
          ([6, 0, 0, 0, 3, 0, 0, 0, 0, 3] : List Nat).take 4
            ≠ ([1, 0, 0, 0, 3] : List Nat).take 4))
    ∧ (([5, 0, 0, 0, 130, 7, 0, 0, 0] : List Nat).take 4
        = u32ToLeBytes (([5, 0, 0, 0, 130, 7, 0, 0, 0] : List Nat).length - 4)
      ∧ ([10, 0, 0, 0, 131, 0, 0, 0, 0, 130, 7, 0, 0, 0] : List Nat).take 4
        = u32ToLeBytes (([1, 0, 0, 0, 131] : List Nat).length +
            (([5, 0, 0, 0, 130, 7, 0, 0, 0] : List Nat).length - 4))
      ∧ (4 ≤ ([1, 0, 0, 0, 131] : List Nat).length →
          ([10, 0, 0, 0, 131, 0, 0, 0, 0, 130, 7, 0, 0, 0] : List Nat).drop 4
            = ([1, 0, 0, 0, 131] : List Nat).drop 4 ++ [0, 0, 0, 0] ++
              ([5, 0, 0, 0, 130, 7, 0, 0, 0] : List Nat).drop 4)
      ∧ (([1, 0, 0, 0, 131] : List Nat) ≠ [] →
          ([1, 0, 0, 0, 131] : List Nat).length +
            (([5, 0, 0, 0, 130, 7, 0, 0, 0] : List Nat).length - 4)
            < 4294967296 →
          ([10, 0, 0, 0, 131, 0, 0, 0, 0, 130, 7, 0, 0, 0] : List Nat).take 4
            ≠ ([5, 0, 0, 0, 130, 7, 0, 0, 0] : List Nat).take 4))) :=
  ⟨⟨by decide, by decide, by decide, by decide⟩,
    c9_encode_absolute_backfill unitEC unitBC .Pong (.DisConnect 7)
      [1, 0, 0, 0, 3] [5, 0, 0, 0, 130, 7, 0, 0, 0]
      [6, 0, 0, 0, 3, 0, 0, 0, 0, 3]
      [10, 0, 0, 0, 131, 0, 0, 0, 0, 130, 7, 0, 0, 0]
      [1, 0, 0, 0, 3] [1, 0, 0, 0, 131]
      (by decide) (by decide) (by decide) (by decide)⟩

set_option maxRecDepth 8192 in
/-- C10 counterexample: a 250-byte `custom_name` satisfies the claim's
`custom_name.len() <= 255` precondition, yet encode-then-decode does not
preserve the name/address split: `6 + data[5]` is `u8` arithmetic, so the
decoder's `name_end` wraps to 0 and the slice `data[6..name_end]` panics
(a debug build already panics on the overflowing addition itself). -/
theorem c10_name_250_counterexample :
    name250.val.length ≤ 255
  ∧ PoolMessageCS.serialize_into unitBC
      (.Connect 0 0 0 0 0 name250 emptyStr) []
      = .ok (128 :: 0 :: 0 :: 0 :: 0 :: 0 :: 250 :: List.replicate 250 97)
  ∧ PoolMessageCS.deserialize (P := Unit)
      (128 :: 0 :: 0 :: 0 :: 0 :: 0 :: 250 :: List.replicate 250 97)
      = .panicked := by
  refine ⟨by decide, by decide, by decide⟩

set_option maxRecDepth 8192 in
/-- C10 (amended): the `Connect` length prefix is `custom_name.len() as
u8` while all name bytes are written, and encode-then-decode preserves the
`(custom_name, address)` field split only under the precondition
`custom_name.len() <= 249`: for lengths 250..=255 the decoder's
`6 + data[5]` offset overflows `u8` and the decode panics, and for longer
names the wrapped length byte misplaces the name/address boundary, as the
256-byte instance shows. -/
theorem c10_connect_name_bound {P : Type} (c : BytesCodec P)
    (wt ay mj mn pt : Nat) (nm ad : RustString)
    (hlen : nm.val.length ≤ 249) :
    (∃ b, PoolMessageCS.serialize_into c (.Connect wt ay mj mn pt nm ad) []
        = .ok b
      ∧ PoolMessageCS.deserialize (P := P) b
        = .ok (.Connect wt ay mj mn pt nm ad))
  ∧ (PoolMessageCS.serialize_into unitBC (.Connect 0 0 0 0 0 name256 oneChar) []
      = .ok (128 :: 0 :: 0 :: 0 :: 0 :: 0 :: 0 ::
          (List.replicate 256 97 ++ [98]))
    ∧ PoolMessageCS.deserialize (P := Unit)
        (128 :: 0 :: 0 :: 0 :: 0 :: 0 :: 0 :: (List.replicate 256 97 ++ [98]))
      = .ok (.Connect 0 0 0 0 0 emptyStr longStr)
    ∧ longStr ≠ oneChar) := by
  refine ⟨⟨_, cs_roundtrip_connect c wt ay mj mn pt nm ad hlen⟩,
    by decide, by decide, by decide⟩

set_option maxRecDepth 8192 in
/-- C10 witness: the amended bound instantiated at a 4-byte name. -/
theorem c10_connect_name_bound_witness :
    strTest.val.length ≤ 249
  ∧ ((∃ b, PoolMessageCS.serialize_into unitBC
        (.Connect 1 2 3 4 5 strTest strTest) [] = .ok b
      ∧ PoolMessageCS.deserialize (P := Unit) b
        = .ok (.Connect 1 2 3 4 5 strTest strTest))
    ∧ (PoolMessageCS.serialize_into unitBC
          (.Connect 0 0 0 0 0 name256 oneChar) []
        = .ok (128 :: 0 :: 0 :: 0 :: 0 :: 0 :: 0 ::
            (List.replicate 256 97 ++ [98]))
      ∧ PoolMessageCS.deserialize (P := Unit)
          (128 :: 0 :: 0 :: 0 :: 0 :: 0 :: 0 ::
            (List.replicate 256 97 ++ [98]))
        = .ok (.Connect 0 0 0 0 0 emptyStr longStr)
      ∧ longStr ≠ oneChar)) :=
  ⟨by decide, c10_connect_name_bound unitBC 1 2 3 4 5 strTest strTest
    (by decide)⟩

end Zkwork
